import Mathlib

/-!
# GastOn reporting and aggregation engine: a verification development

Shallow embedding of the date-range / weekly aggregation subsystem of the
GastOn backend (src/backend/src/utils/dateHelpers.js and
src/backend/src/models/Expense.js).

Modelling conventions:

* A JavaScript Date value is an instant: milliseconds since the Unix epoch,
  modelled as Int.
* The process' local timezone is a constant offset of off minutes east of
  UTC (JS getTimezoneOffset() would return -off), with -1440 < off < 1440
  and no DST transitions.  new Date(s + "T00:00:00") interprets a date-time
  string at local time, while Date.prototype.toISOString renders the UTC
  calendar fields, so the offset is threaded through the embedding
  explicitly.
* Calendar dates are year/month/day triples (Ymd).  The backend serializes
  them as zero-padded YYYY-MM-DD, a bijection between in-range triples and
  their strings, so bucket keys and query bounds are modelled as Ymd values
  or epoch day numbers.
* The calendar arithmetic of the JS engine (MakeDay, YearFromTime,
  MonthFromTime, DateFromTime) is specified declaratively by ECMA-262; it
  is embedded here by the standard era-based conversion between civil
  triples and epoch day counts, staged so every step is verifiable.
* Monetary amounts (the DECIMAL(10,2) column monto) are exact rationals;
  IEEE-754 artifacts of JS number arithmetic are outside this model.
* The stored fecha is the calendar date held by the DATE column, modelled
  as an epoch day number: the backend's own types (types/api.ts) declare
  fecha as a YYYY-MM-DD string, i.e. a plain calendar date.
-/

/-- A civil calendar date: year, month, day (Int fields keep omega usable). -/
structure Ymd where
  y : Int
  m : Int
  d : Int
deriving DecidableEq, Repr

namespace CivDays

/-- Year adjusted to the March-based year used by the era decomposition. -/
def yAdj (x : Ymd) : Int := if x.m ≤ 2 then x.y - 1 else x.y

/-- 400-year era of the adjusted year. -/
def eraC (x : Ymd) : Int := yAdj x / 400

/-- Year of era, in [0, 399]. -/
def yoeC (x : Ymd) : Int := yAdj x - eraC x * 400

/-- March-based month index: Mar=0, ..., Dec=9, Jan=10, Feb=11. -/
def mpC (x : Ymd) : Int := (x.m + 9) % 12

/-- March-based day of year: (153 mp + 2) / 5 is the day count of the months
before mp in the March-based year. -/
def doyC (x : Ymd) : Int := (153 * mpC x + 2) / 5 + x.d - 1

/-- Day of era, in [0, 146096]. -/
def doeC (x : Ymd) : Int := yoeC x * 365 + yoeC x / 4 - yoeC x / 100 + doyC x

end CivDays

/-- Days from 1970-01-01 to the civil date; the arithmetic content of the
ECMA-262 MakeDay operation (719468 days separate 0000-03-01 from the epoch). -/
def civilToDays (x : Ymd) : Int :=
  CivDays.eraC x * 146097 + CivDays.doeC x - 719468

namespace JsDate

/-- Day count rebased to 0000-03-01. -/
def dayC (z : Int) : Int := z + 719468

/-- 400-year era (146097 days each). -/
def era (z : Int) : Int := (dayC z) / 146097

/-- Day of era, in [0, 146096]. -/
def doe (z : Int) : Int := dayC z - era z * 146097

/-- Century within the era, clamped so the final leap day of the era stays
in century 3. -/
def n100 (z : Int) : Int := min (doe z / 36524) 3

/-- Day within the century, in [0, 36524]. -/
def d100 (z : Int) : Int := doe z - n100 z * 36524

/-- Four-year block within the century (1461 days each). -/
def n4 (z : Int) : Int := (d100 z) / 1461

/-- Day within the four-year block, in [0, 1460]. -/
def d4 (z : Int) : Int := d100 z - n4 z * 1461

/-- Year within the four-year block, clamped so the leap day stays in year 3. -/
def n1 (z : Int) : Int := min (d4 z / 365) 3

/-- March-based day of year, in [0, 365]. -/
def doyM (z : Int) : Int := d4 z - n1 z * 365

/-- Year of era reassembled from its digits. -/
def yoe (z : Int) : Int := 100 * n100 z + 4 * n4 z + n1 z

/-- March-based month recovered from the day of year. -/
def mpOf (z : Int) : Int := (5 * doyM z + 2) / 153

/-- Day of month of the civil date of day z. -/
def dayOf (z : Int) : Int := doyM z - (153 * mpOf z + 2) / 5 + 1

/-- Month of the civil date of day z. -/
def monthOf (z : Int) : Int := if mpOf z < 10 then mpOf z + 3 else mpOf z - 9

/-- Year of the civil date of day z. -/
def yearOf (z : Int) : Int :=
  (if monthOf z ≤ 2 then 1 else 0) + yoe z + era z * 400

end JsDate

/-- Civil date of an epoch day number; the arithmetic content of the ECMA-262
YearFromTime / MonthFromTime / DateFromTime operations. -/
def civilOfEpochDay (z : Int) : Ymd :=
  { y := JsDate.yearOf z, m := JsDate.monthOf z, d := JsDate.dayOf z }

/-- Number of days in a month of the proleptic Gregorian calendar. -/
def daysInMonth (y m : Int) : Int :=
  if m = 2 then
    if (y % 4 = 0 ∧ y % 100 ≠ 0) ∨ y % 400 = 0 then 29 else 28
  else if m = 4 ∨ m = 6 ∨ m = 9 ∨ m = 11 then 30
  else 31

/-- The triple denotes a real calendar date. -/
def Ymd.valid (x : Ymd) : Prop :=
  1 ≤ x.m ∧ x.m ≤ 12 ∧ 1 ≤ x.d ∧ x.d ≤ daysInMonth x.y x.m

instance (x : Ymd) : Decidable x.valid := by
  unfold Ymd.valid; infer_instance

namespace JsDate

theorem doe_bounds (z : Int) : 0 ≤ doe z ∧ doe z < 146097 := by
  unfold doe era dayC; omega

theorem n100_bounds (z : Int) : 0 ≤ n100 z ∧ n100 z ≤ 3 := by
  have := doe_bounds z
  unfold n100
  rcases le_total (doe z / 36524) 3 with h | h
  · rw [min_eq_left h]; omega
  · rw [min_eq_right h]; omega

theorem d100_bounds (z : Int) : 0 ≤ d100 z ∧ d100 z ≤ 36524 := by
  have h := doe_bounds z
  unfold d100 n100
  rcases le_total (doe z / 36524) 3 with h' | h'
  · rw [min_eq_left h']; omega
  · rw [min_eq_right h']; omega

theorem n4_bounds (z : Int) : 0 ≤ n4 z ∧ n4 z ≤ 24 := by
  have := d100_bounds z
  unfold n4; omega

theorem d4_bounds (z : Int) : 0 ≤ d4 z ∧ d4 z ≤ 1460 := by
  have := d100_bounds z
  unfold d4 n4; omega

theorem n1_bounds (z : Int) : 0 ≤ n1 z ∧ n1 z ≤ 3 := by
  have := d4_bounds z
  unfold n1
  rcases le_total (d4 z / 365) 3 with h' | h'
  · rw [min_eq_left h']; omega
  · rw [min_eq_right h']; omega

theorem doyM_bounds (z : Int) : 0 ≤ doyM z ∧ doyM z ≤ 365 := by
  have := d4_bounds z
  unfold doyM n1
  rcases le_total (d4 z / 365) 3 with h' | h'
  · rw [min_eq_left h']; omega
  · rw [min_eq_right h']; omega

theorem yoe_bounds (z : Int) : 0 ≤ yoe z ∧ yoe z ≤ 399 := by
  have := n100_bounds z; have := n4_bounds z; have := n1_bounds z
  unfold yoe; omega

theorem mpOf_bounds (z : Int) : 0 ≤ mpOf z ∧ mpOf z ≤ 11 := by
  have := doyM_bounds z
  unfold mpOf; omega

theorem decomp (z : Int) :
    36524 * n100 z + 1461 * n4 z + 365 * n1 z + doyM z = doe z := by
  unfold doyM d4 d100; omega

theorem yoe_ediv4 (z : Int) : (yoe z) / 4 = 25 * n100 z + n4 z := by
  have := n100_bounds z; have := n4_bounds z; have := n1_bounds z
  unfold yoe; omega

theorem yoe_ediv100 (z : Int) : (yoe z) / 100 = n100 z := by
  have := n100_bounds z; have := n4_bounds z; have := n1_bounds z
  unfold yoe; omega

theorem era_doe (z : Int) : era z * 146097 + doe z = z + 719468 := by
  unfold doe dayC; ring

end JsDate

/-- The two calendar conversions are mutually inverse: recovering the civil
date of a day number and converting back yields the same day number. -/
theorem civilToDays_civilOfEpochDay (z : Int) :
    civilToDays (civilOfEpochDay z) = z := by
  have hdoe := JsDate.doe_bounds z
  have hyoe := JsDate.yoe_bounds z
  have hmp := JsDate.mpOf_bounds z
  have hdec := JsDate.decomp z
  have h4 := JsDate.yoe_ediv4 z
  have h100 := JsDate.yoe_ediv100 z
  have hed := JsDate.era_doe z
  have hdoy := JsDate.doyM_bounds z
  have hn100 := JsDate.n100_bounds z
  have hn4 := JsDate.n4_bounds z
  have hn1 := JsDate.n1_bounds z
  have hyd : JsDate.yoe z = 100 * JsDate.n100 z + 4 * JsDate.n4 z + JsDate.n1 z := rfl
  unfold civilToDays CivDays.doeC CivDays.yoeC CivDays.eraC CivDays.yAdj
    CivDays.doyC CivDays.mpC civilOfEpochDay
  simp only [JsDate.yearOf, JsDate.monthOf, JsDate.dayOf]
  have hmpb : (JsDate.mpOf z + 3 + 9) % 12 = JsDate.mpOf z := by omega
  have hmpb' : (JsDate.mpOf z - 9 + 9) % 12 = JsDate.mpOf z := by omega
  split_ifs
  · omega
  · rw [hmpb]
    have e1 : (0 : Int) + JsDate.yoe z + JsDate.era z * 400
        = JsDate.yoe z + JsDate.era z * 400 := by ring
    rw [e1]
    have e2 : (JsDate.yoe z + JsDate.era z * 400) / 400 = JsDate.era z := by omega
    rw [e2]
    have e3 : JsDate.yoe z + JsDate.era z * 400 - JsDate.era z * 400
        = JsDate.yoe z := by ring
    rw [e3]
    omega
  · rw [hmpb']
    have e1 : (1 : Int) + JsDate.yoe z + JsDate.era z * 400 - 1
        = JsDate.yoe z + JsDate.era z * 400 := by ring
    rw [e1]
    have e2 : (JsDate.yoe z + JsDate.era z * 400) / 400 = JsDate.era z := by omega
    rw [e2]
    have e3 : JsDate.yoe z + JsDate.era z * 400 - JsDate.era z * 400
        = JsDate.yoe z := by ring
    rw [e3]
    omega
  · omega

namespace CivDays

theorem yoeC_bounds (x : Ymd) : 0 ≤ yoeC x ∧ yoeC x ≤ 399 := by
  unfold yoeC eraC; omega

theorem mpC_bounds (x : Ymd) (h2 : x.m ≤ 12) : 0 ≤ mpC x ∧ mpC x ≤ 11 := by
  unfold mpC; omega

theorem doyC_bounds (y m d : Int) (h1 : 1 ≤ m) (h2 : m ≤ 12) (h3 : 1 ≤ d)
    (h4 : d ≤ daysInMonth y m) : 0 ≤ doyC ⟨y, m, d⟩ ∧ doyC ⟨y, m, d⟩ ≤ 365 := by
  unfold daysInMonth at h4
  unfold doyC mpC
  dsimp only at h4 ⊢
  interval_cases m <;> split_ifs at h4 <;> omega

theorem doyC_365_mod4 (y m d : Int) (h1 : 1 ≤ m) (h2 : m ≤ 12) (h3 : 1 ≤ d)
    (h4 : d ≤ daysInMonth y m) (h365 : doyC ⟨y, m, d⟩ = 365) :
    yoeC ⟨y, m, d⟩ % 4 = 3 := by
  unfold daysInMonth at h4
  unfold doyC mpC at h365
  unfold yoeC eraC yAdj
  dsimp only at h4 h365 ⊢
  interval_cases m <;> split_ifs at h4 <;> simp_all <;> omega

theorem doyC_365_century (y m d : Int) (h1 : 1 ≤ m) (h2 : m ≤ 12) (h3 : 1 ≤ d)
    (h4 : d ≤ daysInMonth y m) (h365 : doyC ⟨y, m, d⟩ = 365)
    (h99 : yoeC ⟨y, m, d⟩ % 100 = 99) : yoeC ⟨y, m, d⟩ / 100 = 3 := by
  unfold daysInMonth at h4
  unfold doyC mpC at h365
  unfold yoeC eraC yAdj at h99 ⊢
  dsimp only at h4 h365 h99 ⊢
  interval_cases m <;> split_ifs at h4 <;> simp_all <;> omega

theorem mpC_recover (y m d : Int) (h1 : 1 ≤ m) (h2 : m ≤ 12) (h3 : 1 ≤ d)
    (h4 : d ≤ daysInMonth y m) :
    (5 * doyC ⟨y, m, d⟩ + 2) / 153 = mpC ⟨y, m, d⟩ := by
  unfold daysInMonth at h4
  unfold doyC mpC
  dsimp only at h4 ⊢
  interval_cases m <;> split_ifs at h4 <;> omega

end CivDays

/-- On real calendar dates the conversion to a day number and back is the
identity: the decoding stages recover exactly the encoded civil fields. -/
theorem civilOfEpochDay_civilToDays (x : Ymd) (hx : x.valid) :
    civilOfEpochDay (civilToDays x) = x := by
  obtain ⟨y, m, d⟩ := x
  obtain ⟨h1, h2, h3, h4⟩ := hx
  dsimp only at h1 h2 h3 h4
  have hyoe := CivDays.yoeC_bounds ⟨y, m, d⟩
  have hdoy := CivDays.doyC_bounds y m d h1 h2 h3 h4
  have hmpb := CivDays.mpC_bounds ⟨y, m, d⟩ h2
  obtain ⟨q, hq⟩ : ∃ q, q = CivDays.yoeC ⟨y, m, d⟩ / 100 := ⟨_, rfl⟩
  have hq1 : 100 * q ≤ CivDays.yoeC ⟨y, m, d⟩ ∧
      CivDays.yoeC ⟨y, m, d⟩ < 100 * q + 100 := by rw [hq]; omega
  obtain ⟨f, hf⟩ : ∃ f, f = (CivDays.yoeC ⟨y, m, d⟩ - 100 * q) / 4 := ⟨_, rfl⟩
  have hf1 : 4 * f ≤ CivDays.yoeC ⟨y, m, d⟩ - 100 * q ∧
      CivDays.yoeC ⟨y, m, d⟩ - 100 * q < 4 * f + 4 := by rw [hf]; omega
  obtain ⟨g, hg⟩ : ∃ g, g = CivDays.yoeC ⟨y, m, d⟩ - 100 * q - 4 * f := ⟨_, rfl⟩
  have hqb : 0 ≤ q ∧ q ≤ 3 := by rw [hq]; omega
  have hfb : 0 ≤ f ∧ f ≤ 24 := by omega
  have hgb : 0 ≤ g ∧ g ≤ 3 := by omega
  have hsum : CivDays.yoeC ⟨y, m, d⟩ = 100 * q + 4 * f + g := by omega
  have h25 : CivDays.yoeC ⟨y, m, d⟩ / 4 = 25 * q + f := by omega
  have h100 : CivDays.yoeC ⟨y, m, d⟩ / 100 = q := by omega
  have hdoe2 : CivDays.doeC ⟨y, m, d⟩
      = 36524 * q + 1461 * f + 365 * g + CivDays.doyC ⟨y, m, d⟩ := by
    unfold CivDays.doeC; rw [h25, h100]; omega
  have hdoeb : 0 ≤ CivDays.doeC ⟨y, m, d⟩ ∧ CivDays.doeC ⟨y, m, d⟩ ≤ 146096 := by
    omega
  set D := civilToDays ⟨y, m, d⟩ with hD
  have hdayc : JsDate.dayC D
      = CivDays.eraC ⟨y, m, d⟩ * 146097 + CivDays.doeC ⟨y, m, d⟩ := by
    rw [hD]; unfold JsDate.dayC civilToDays; ring
  have hera : JsDate.era D = CivDays.eraC ⟨y, m, d⟩ := by
    unfold JsDate.era; rw [hdayc]; omega
  have hdoe : JsDate.doe D = CivDays.doeC ⟨y, m, d⟩ := by
    unfold JsDate.doe; rw [hdayc, hera]; ring
  have hrem : 1461 * f + 365 * g + CivDays.doyC ⟨y, m, d⟩ ≤ 36524 := by omega
  have hn100 : JsDate.n100 D = q := by
    unfold JsDate.n100; rw [hdoe]
    rcases eq_or_lt_of_le hrem with heq | hlt
    · have h365 : CivDays.doyC ⟨y, m, d⟩ = 365 := by omega
      have hg3 : g = 3 := by
        have := CivDays.doyC_365_mod4 y m d h1 h2 h3 h4 h365
        omega
      have hq3 : q = 3 := by
        have h99 : CivDays.yoeC ⟨y, m, d⟩ % 100 = 99 := by omega
        have := CivDays.doyC_365_century y m d h1 h2 h3 h4 h365 h99
        omega
      have h36 : CivDays.doeC ⟨y, m, d⟩ / 36524 = 4 := by omega
      rw [h36]; norm_num; omega
    · have h36 : CivDays.doeC ⟨y, m, d⟩ / 36524 = q := by omega
      rw [h36]; exact min_eq_left (by omega)
  have hd100 : JsDate.d100 D = 1461 * f + 365 * g + CivDays.doyC ⟨y, m, d⟩ := by
    unfold JsDate.d100; rw [hdoe, hn100]; omega
  have hn4 : JsDate.n4 D = f := by
    unfold JsDate.n4; rw [hd100]; omega
  have hd4 : JsDate.d4 D = 365 * g + CivDays.doyC ⟨y, m, d⟩ := by
    unfold JsDate.d4; rw [hd100, hn4]; ring
  have hn1 : JsDate.n1 D = g := by
    unfold JsDate.n1; rw [hd4]
    rcases eq_or_lt_of_le hdoy.2 with heq | hlt
    · have hg3 : g = 3 := by
        have := CivDays.doyC_365_mod4 y m d h1 h2 h3 h4 heq
        omega
      have h365' : (365 * g + CivDays.doyC ⟨y, m, d⟩) / 365 = 4 := by omega
      rw [h365']; norm_num; omega
    · have h365' : (365 * g + CivDays.doyC ⟨y, m, d⟩) / 365 = g := by omega
      rw [h365']; exact min_eq_left (by omega)
  have hdoyM : JsDate.doyM D = CivDays.doyC ⟨y, m, d⟩ := by
    unfold JsDate.doyM; rw [hd4, hn1]; ring
  have hmpOf : JsDate.mpOf D = CivDays.mpC ⟨y, m, d⟩ := by
    unfold JsDate.mpOf; rw [hdoyM]
    exact CivDays.mpC_recover y m d h1 h2 h3 h4
  have hdayOf : JsDate.dayOf D = d := by
    unfold JsDate.dayOf; rw [hdoyM, hmpOf]
    unfold CivDays.doyC; ring
  have hmonthOf : JsDate.monthOf D = m := by
    unfold JsDate.monthOf; rw [hmpOf]
    unfold CivDays.mpC
    dsimp only
    split_ifs <;> omega
  have hyoeD : JsDate.yoe D = CivDays.yoeC ⟨y, m, d⟩ := by
    unfold JsDate.yoe; rw [hn100, hn4, hn1]; omega
  have hyearOf : JsDate.yearOf D = y := by
    unfold JsDate.yearOf; rw [hmonthOf, hyoeD, hera]
    unfold CivDays.yoeC CivDays.eraC CivDays.yAdj
    dsimp only
    split_ifs <;> omega
  unfold civilOfEpochDay
  rw [hyearOf, hmonthOf, hdayOf]

theorem civilOfEpochDay_injective : Function.Injective civilOfEpochDay := by
  intro a b h
  have ha := civilToDays_civilOfEpochDay a
  have hb := civilToDays_civilOfEpochDay b
  rw [← ha, ← hb, h]

/-! ## JavaScript Date values

A Date is an instant in milliseconds since the epoch.  Local-time accessors
depend on the constant environment offset off (minutes east of UTC). -/

def msPerDay : Int := 86400000

/-- Local calendar day holding the instant t. -/
def localDay (off t : Int) : Int := (t + off * 60000) / msPerDay

/-- UTC calendar day holding the instant t (used by toISOString). -/
def utcDay (t : Int) : Int := t / msPerDay

/-- Date.prototype.getDay: local day of week, 0 = Sunday (1970-01-01 was a
Thursday, day 4). -/
def jsGetDay (off t : Int) : Int := (localDay off t + 4) % 7

/-- Date.prototype.getDate: local day of month. -/
def jsGetDate (off t : Int) : Int := (civilOfEpochDay (localDay off t)).d

/-- Date.prototype.setDate: moves the instant so its local day of month
becomes n, carrying month/year overflow, keeping the time of day. -/
def jsSetDate (off t n : Int) : Int := t + (n - jsGetDate off t) * msPerDay

/-- formatDateToString (dateHelpers.js): date.toISOString().split('T')[0].
toISOString renders the UTC calendar fields of the instant; the result is
the Ymd the string displays. -/
def formatDateToString (t : Int) : Ymd := civilOfEpochDay (utcDay t)

/-! ## Date-string parsing

new Date(s + "T00:00:00") follows the ECMA-262 Date Time String Format:
the date part may be YYYY, YYYY-MM or YYYY-MM-DD (each with exactly that
many digits), out-of-range fields give an invalid date, and a date-time
form without offset is interpreted as local time.  Extended ±YYYYYY years
and engine-specific fallback formats are outside this model. -/

def digitVal (c : Char) : Option Int :=
  if '0' ≤ c ∧ c ≤ '9' then some ((c.toNat : Int) - 48) else none

def digits2 (a b : Char) : Option Int :=
  match digitVal a, digitVal b with
  | some x, some y => some (10 * x + y)
  | _, _ => none

def digits4 (a b c d : Char) : Option Int :=
  match digits2 a b, digits2 c d with
  | some x, some y => some (100 * x + y)
  | _, _ => none

/-- Acceptance of a well-formed YYYY-MM-DD string denoting a real calendar
date; also the model of Postgres casting a YYYY-MM-DD text literal to DATE. -/
def parseYmdStrict (s : String) : Option Ymd :=
  match s.data with
  | [y1, y2, y3, y4, '-', m1, m2, '-', d1, d2] =>
    match digits4 y1 y2 y3 y4, digits2 m1 m2, digits2 d1 d2 with
    | some y, some m, some d =>
      if 1 ≤ m ∧ m ≤ 12 ∧ 1 ≤ d ∧ d ≤ daysInMonth y m then some ⟨y, m, d⟩
      else none
    | _, _, _ => none
  | _ => none

/-- The date accepted by new Date(s + "T00:00:00") per the ECMA grammar:
year, year-month, or full date precision. -/
def jsDateParse (s : String) : Option Ymd :=
  match s.data with
  | [y1, y2, y3, y4] =>
    match digits4 y1 y2 y3 y4 with
    | some y => some ⟨y, 1, 1⟩
    | none => none
  | [y1, y2, y3, y4, '-', m1, m2] =>
    match digits4 y1 y2 y3 y4, digits2 m1 m2 with
    | some y, some m => if 1 ≤ m ∧ m ≤ 12 then some ⟨y, m, 1⟩ else none
    | _, _ => none
  | _ => parseYmdStrict s

/-- parseDateString (dateHelpers.js): new Date(dateString + "T00:00:00"),
i.e. local midnight of the parsed civil date; throws (none) when the engine
yields an invalid date. -/
def parseDateString (off : Int) (s : String) : Option Int :=
  (jsDateParse s).map (fun x => civilToDays x * msPerDay - off * 60000)

/-! ## getWeekDates and friends (dateHelpers.js) -/

structure WeekDates where
  weekStart : Ymd
  weekEnd : Ymd
  dates : List Ymd
deriving DecidableEq, Repr

/-- generateWeekDates: the 7 formatted dates starting at the Monday date. -/
def generateWeekDates (off mondayT : Int) : List Ymd :=
  (List.range 7).map
    (fun i : Nat => formatDateToString (jsSetDate off mondayT (jsGetDate off mondayT + (i : Int))))

/-- getWeekDates: week bounds of the week containing the parsed input date;
Monday is the week start (dayOfWeek 0 is Sunday, handled by the -6 offset). -/
def getWeekDates (off : Int) (s : String) : Option WeekDates :=
  (parseDateString off s).map (fun t =>
    let dayOfWeek := jsGetDay off t
    let mondayOffset : Int := if dayOfWeek = 0 then -6 else 1 - dayOfWeek
    let weekStart := jsSetDate off t (jsGetDate off t + mondayOffset)
    let weekEnd := jsSetDate off weekStart (jsGetDate off weekStart + 6)
    { weekStart := formatDateToString weekStart
      weekEnd := formatDateToString weekEnd
      dates := generateWeekDates off weekStart })

/-! ## validateDateRange (dateHelpers.js) -/

inductive RangeErr where
  | invalidFormat
  | reversed
  | tooLarge
  | inFuture
deriving DecidableEq, Repr

/-- Math.ceil of an exact integer ratio (the ms difference of two local
midnights under a constant offset is an exact multiple of a day). -/
def jsCeilDiv (a b : Int) : Int := -((-a) / b)

/-- new Date() with setHours(23, 59, 59, 999): last millisecond of the local
day containing the instant now. -/
def endOfToday (off now : Int) : Int :=
  (localDay off now + 1) * msPerDay - off * 60000 - 1

/-- validateDateRange: accumulates the errors of the range checks; a parse
failure of either date yields only the format error. -/
def validateDateRange (off now : Int) (startDate endDate : String)
    (maxDays : Int) : List RangeErr :=
  match parseDateString off startDate, parseDateString off endDate with
  | some start, some stop =>
      (if start > stop then [RangeErr.reversed] else []) ++
      (if jsCeilDiv (stop - start) msPerDay > maxDays then [RangeErr.tooLarge] else []) ++
      (if start > endOfToday off now then [RangeErr.inFuture] else [])
  | _, _ => [RangeErr.invalidFormat]

/-! ## Arithmetic facts about the Date embedding -/

theorem localDay_parse (off D : Int) :
    localDay off (D * msPerDay - off * 60000) = D := by
  unfold localDay msPerDay; omega

theorem utcDay_shift (off D k : Int) (h1 : -1440 < off) (h2 : off < 1440) :
    utcDay (D * msPerDay - off * 60000 + k * msPerDay)
      = D + k - (if 0 < off then 1 else 0) := by
  unfold utcDay msPerDay
  split_ifs <;> omega

theorem jsSetDate_add (off t k : Int) :
    jsSetDate off t (jsGetDate off t + k) = t + k * msPerDay := by
  unfold jsSetDate; ring

theorem jsGetDay_parse (off D : Int) :
    jsGetDay off (D * msPerDay - off * 60000) = (D + 4) % 7 := by
  unfold jsGetDay; rw [localDay_parse]

/-- The day number denoted by the key string of local day D under offset
off: formatting drifts one day back exactly in an east-of-UTC environment. -/
def keyDay (off D : Int) : Int := D - (if 0 < off then 1 else 0)

theorem formatDateToString_shift (off D k : Int) (h1 : -1440 < off) (h2 : off < 1440) :
    formatDateToString (D * msPerDay - off * 60000 + k * msPerDay)
      = civilOfEpochDay (keyDay off D + k) := by
  unfold formatDateToString keyDay
  rw [utcDay_shift off D k h1 h2]
  congr 1
  omega

/-- The week-start day (as denoted by the returned strings) computed by
getWeekDates from an anchor whose local day number is a. -/
def weekStartDay (off a : Int) : Int :=
  keyDay off (a + (if (a + 4) % 7 = 0 then -6 else 1 - (a + 4) % 7))

theorem getWeekDates_eq (off : Int) (h1 : -1440 < off) (h2 : off < 1440)
    (s : String) (x : Ymd) (hp : jsDateParse s = some x) :
    getWeekDates off s = some
      { weekStart := civilOfEpochDay (weekStartDay off (civilToDays x))
        weekEnd := civilOfEpochDay (weekStartDay off (civilToDays x) + 6)
        dates := (List.range 7).map
          (fun i : Nat => civilOfEpochDay (weekStartDay off (civilToDays x) + (i : Int))) } := by
  unfold getWeekDates parseDateString
  rw [hp]
  simp only [Option.map_some']
  congr 1
  rw [jsGetDay_parse]
  rw [WeekDates.mk.injEq]
  unfold weekStartDay keyDay generateWeekDates formatDateToString utcDay
    jsSetDate jsGetDate localDay msPerDay
  refine ⟨?_, ?_, ?_⟩
  · congr 1
    split_ifs <;> omega
  · congr 1
    split_ifs <;> omega
  · apply List.map_congr_left
    intro i hi
    congr 1
    split_ifs <;> omega

/-! ## Parser facts -/

theorem daysInMonth_pos (y m : Int) : 28 ≤ daysInMonth y m := by
  unfold daysInMonth; split_ifs <;> omega

theorem valid_first (y m : Int) (h1 : 1 ≤ m) (h2 : m ≤ 12) :
    (Ymd.mk y m 1).valid := by
  have := daysInMonth_pos y m
  unfold Ymd.valid
  dsimp only
  omega

/-- A string accepted by the strict parser denotes a real calendar date. -/
theorem parseYmdStrict_valid (s : String) (x : Ymd)
    (h : parseYmdStrict s = some x) : x.valid := by
  unfold parseYmdStrict at h
  split at h
  · split at h
    · split_ifs at h with hc
      · cases h
        unfold Ymd.valid
        dsimp only
        omega
    · cases h
  · cases h

/-- A date accepted by the JS parser is a real calendar date. -/
theorem jsDateParse_valid (s : String) (x : Ymd)
    (h : jsDateParse s = some x) : x.valid := by
  unfold jsDateParse at h
  split at h
  · split at h
    · cases h
      exact valid_first _ _ (by norm_num) (by norm_num)
    · cases h
  · split at h
    · split_ifs at h with hc
      · cases h
        exact valid_first _ _ (by omega) (by omega)
    · cases h
  · exact parseYmdStrict_valid s x h

/-- Every strictly well-formed YYYY-MM-DD date is accepted by the JS parser
with the same value. -/
theorem jsDateParse_of_strict (s : String) (x : Ymd)
    (h : parseYmdStrict s = some x) : jsDateParse s = some x := by
  unfold jsDateParse
  split
  · next y1 y2 y3 y4 heq =>
    unfold parseYmdStrict at h
    rw [heq] at h
    simp at h
  · next y1 y2 y3 y4 m1 m2 heq =>
    unfold parseYmdStrict at h
    rw [heq] at h
    simp at h
  · exact h

/-! ## The expense store (models/Expense.js over the gastos table)

A row of the gastos table joined with its category and name, as
formatExpenseWithDetails returns it.  monto is the DECIMAL(10,2) value as an
exact rational; fecha is the DATE column as an epoch day; created_at is the
insertion timestamp used as the creation-order key. -/

structure Gasto where
  id : Nat
  monto : ℚ
  fecha : Int
  categoria_id : Nat
  nombre_gasto_id : Nat
  created_at : Int
  descripcion : Option String
deriving DecidableEq, Repr

structure Categoria where
  id : Nat
  nombre : String
  color : String
deriving DecidableEq, Repr

/-- The persisted state the queries read. -/
structure Db where
  gastos : List Gasto
  categorias : List Categoria
deriving DecidableEq, Repr

/-- ORDER BY g.fecha ASC, g.created_at ASC (the weekly query). -/
def weeklyOrder (a b : Gasto) : Prop :=
  a.fecha < b.fecha ∨ (a.fecha = b.fecha ∧ a.created_at ≤ b.created_at)

instance : DecidableRel weeklyOrder := fun a b => by
  unfold weeklyOrder; infer_instance

instance : IsTotal Gasto weeklyOrder := ⟨by intro a b; unfold weeklyOrder; omega⟩

instance : IsTrans Gasto weeklyOrder :=
  ⟨by intro a b c hab hbc; unfold weeklyOrder at *; omega⟩

/-- ORDER BY g.fecha DESC, g.created_at DESC (the range query). -/
def rangeOrder (a b : Gasto) : Prop :=
  b.fecha < a.fecha ∨ (a.fecha = b.fecha ∧ b.created_at ≤ a.created_at)

instance : DecidableRel rangeOrder := fun a b => by
  unfold rangeOrder; infer_instance

instance : IsTotal Gasto rangeOrder := ⟨by intro a b; unfold rangeOrder; omega⟩

instance : IsTrans Gasto rangeOrder :=
  ⟨by intro a b c hab hbc; unfold rangeOrder at *; omega⟩

/-- SQL SUM over a group: NULL on an empty group. -/
def sqlSum : List ℚ → Option ℚ
  | [] => none
  | x :: xs => some ((x :: xs).sum)

/-- SQL AVG over a group: NULL on an empty group. -/
def sqlAvg : List ℚ → Option ℚ
  | [] => none
  | x :: xs => some ((x :: xs).sum / ((x :: xs).length : ℚ))

/-- SQL MIN over a group. -/
def sqlMin : List ℚ → Option ℚ
  | [] => none
  | x :: xs => some (xs.foldl min x)

/-- SQL MAX over a group. -/
def sqlMax : List ℚ → Option ℚ
  | [] => none
  | x :: xs => some (xs.foldl max x)

/-- The YYYY-MM-DD key under which an expense row appears when its DATE value
is used as a JS object key. -/
def fechaKey (g : Gasto) : Ymd := civilOfEpochDay g.fecha

/-- organizeExpensesByDay: initialize one empty bucket per date key in order,
then push each expense onto the bucket matching its fecha key, dropping
expenses whose key is absent.  (The dates list never repeats a key; on a
repeated key a JS object would hold a single property.) -/
def organizeExpensesByDay (expenses : List Gasto) (dates : List Ymd) :
    List (Ymd × List Gasto) :=
  expenses.foldl
    (fun acc e =>
      acc.map (fun kv => if kv.1 = fechaKey e then (kv.1, kv.2 ++ [e]) else kv))
    (dates.map (fun dt => (dt, ([] : List Gasto))))

structure WeeklyResult where
  weekStart : Ymd
  weekEnd : Ymd
  dates : List Ymd
  expenses : List (Ymd × List Gasto)
  weekTotal : ℚ
  totalExpenses : Nat
deriving DecidableEq, Repr

/-- findWeeklyExpenses: week bounds from getWeekDates, one range-bounded
query ordered by fecha ASC, created_at ASC, bucketing by day, and one
reduce over all fetched rows for the total. -/
def findWeeklyExpenses (off : Int) (db : Db) (dateInWeek : String) :
    Option WeeklyResult :=
  (getWeekDates off dateInWeek).map (fun w =>
    let lo := civilToDays w.weekStart
    let hi := civilToDays w.weekEnd
    let fetched := List.insertionSort weeklyOrder
      (db.gastos.filter (fun g => decide (lo ≤ g.fecha) && decide (g.fecha ≤ hi)))
    { weekStart := w.weekStart
      weekEnd := w.weekEnd
      dates := w.dates
      expenses := organizeExpensesByDay fetched w.dates
      weekTotal := fetched.foldl (fun acc g => acc + g.monto) 0
      totalExpenses := fetched.length })

/-- Failures surfaced by the store operations: a 400 ApiError from range
validation, or a database error (e.g. a date literal Postgres rejects). -/
inductive ApiFailure where
  | badRequest (errs : List RangeErr)
  | dbError
deriving DecidableEq, Repr

/-- Options of findByDateRange; categoryId is tested for JS truthiness, and
OFFSET is only emitted when LIMIT is present. -/
structure RangeOptions where
  categoryId : Option Nat := none
  limit : Option Nat := none
  offset : Option Nat := none
deriving DecidableEq, Repr

/-- LIMIT/OFFSET emission of findByDateRange: LIMIT only when truthy; OFFSET
only inside the LIMIT branch and only when itself truthy. -/
def applyPagination (opts : RangeOptions) (l : List Gasto) : List Gasto :=
  match opts.limit with
  | some lim =>
    if lim ≠ 0 then
      match opts.offset with
      | some o => if o ≠ 0 then (l.drop o).take lim else l.take lim
      | none => l.take lim
    else l
  | none => l

/-- Postgres casting a text parameter to DATE on the fecha comparisons. -/
def pgDateCast (s : String) : Option Int := (parseYmdStrict s).map civilToDays

/-- The WHERE clause of the range queries, optionally with the category
filter (options.categoryId is truthy only when present and nonzero). -/
def rowMatches (lo hi : Int) (categoryId : Option Nat) (g : Gasto) : Bool :=
  decide (lo ≤ g.fecha) && decide (g.fecha ≤ hi) &&
    (match categoryId with
     | some c => if c ≠ 0 then decide (g.categoria_id = c) else true
     | none => true)

/-- findByDateRange: validate, then one query with the range bounds, the
optional category filter, ORDER BY fecha DESC, created_at DESC, and
LIMIT/OFFSET when supplied. -/
def findByDateRange (off now : Int) (db : Db) (startDate endDate : String)
    (opts : RangeOptions) : Except ApiFailure (List Gasto) :=
  let errs := validateDateRange off now startDate endDate 365
  if errs.isEmpty then
    match pgDateCast startDate, pgDateCast endDate with
    | some lo, some hi =>
      .ok (applyPagination opts
        (List.insertionSort rangeOrder
          (db.gastos.filter (rowMatches lo hi opts.categoryId))))
    | _, _ => .error .dbError
  else .error (.badRequest errs)

structure Stats where
  totalExpenses : Nat
  totalAmount : ℚ
  averageAmount : ℚ
  minAmount : ℚ
  maxAmount : ℚ
  categoriesUsed : Nat
  expenseNamesUsed : Nat
  dateRange : String × String
deriving DecidableEq, Repr

/-- getStatistics: one aggregate query over the date range; each NULL or NaN
aggregate is coerced to 0 by parseFloat(x) || 0. -/
def getStatistics (off now : Int) (db : Db) (startDate endDate : String) :
    Except ApiFailure Stats :=
  let errs := validateDateRange off now startDate endDate 365
  if errs.isEmpty then
    match pgDateCast startDate, pgDateCast endDate with
    | some lo, some hi =>
      let rows := db.gastos.filter (rowMatches lo hi none)
      .ok { totalExpenses := rows.length
            totalAmount := (sqlSum (rows.map (·.monto))).getD 0
            averageAmount := (sqlAvg (rows.map (·.monto))).getD 0
            minAmount := (sqlMin (rows.map (·.monto))).getD 0
            maxAmount := (sqlMax (rows.map (·.monto))).getD 0
            categoriesUsed := (rows.map (·.categoria_id)).dedup.length
            expenseNamesUsed := (rows.map (·.nombre_gasto_id)).dedup.length
            dateRange := (startDate, endDate) }
    | _, _ => .error .dbError
  else .error (.badRequest errs)

/-- One output group of the per-category aggregate before the NULL-to-0
output mapping. -/
structure CatGroup where
  categoria : Categoria
  cnt : Nat
  total : Option ℚ
  avg : Option ℚ
deriving DecidableEq, Repr

/-- ORDER BY total_amount DESC NULLS LAST, c.nombre ASC. -/
def catOrderB (a b : CatGroup) : Bool :=
  match a.total, b.total with
  | some xa, some xb =>
    decide (xb < xa) || (decide (xa = xb) && decide (a.categoria.nombre ≤ b.categoria.nombre))
  | some _, none => true
  | none, some _ => false
  | none, none => decide (a.categoria.nombre ≤ b.categoria.nombre)

def catOrder (a b : CatGroup) : Prop := catOrderB a b = true

instance : DecidableRel catOrder := fun a b => by
  unfold catOrder; infer_instance

instance : IsTotal CatGroup catOrder := by
  constructor
  intro a b
  unfold catOrder catOrderB
  rcases hta : a.total with _ | xa <;> rcases htb : b.total with _ | xb <;>
    simp only [hta, htb, Bool.or_eq_true, Bool.and_eq_true, decide_eq_true_eq]
  · exact le_total _ _
  · exact Or.inr trivial
  · exact Or.inl trivial
  · rcases lt_trichotomy xa xb with h | h | h
    · exact Or.inr (Or.inl h)
    · rcases le_total a.categoria.nombre b.categoria.nombre with h' | h'
      · exact Or.inl (Or.inr ⟨h, h'⟩)
      · exact Or.inr (Or.inr ⟨h.symm, h'⟩)
    · exact Or.inl (Or.inl h)

instance : IsTrans CatGroup catOrder := by
  constructor
  intro a b c hab hbc
  unfold catOrder catOrderB at hab hbc ⊢
  rcases hta : a.total with _ | xa <;> rcases htb : b.total with _ | xb <;>
    rcases htc : c.total with _ | xc <;>
    simp_all only [Bool.or_eq_true, Bool.and_eq_true, decide_eq_true_eq] <;>
    try trivial
  · exact le_trans hab hbc
  · rcases hab with h | h
    · rcases hbc with h' | h'
      · exact Or.inl (lt_trans h' h)
      · exact Or.inl (h'.1 ▸ h)
    · rcases hbc with h' | h'
      · exact Or.inl (h.1 ▸ h')
      · exact Or.inr ⟨h.1.trans h'.1, h.2.trans h'.2⟩

/-- The output row shape of getByCategory. -/
structure CategoryRow where
  categoria : Categoria
  expenseCount : Nat
  totalAmount : ℚ
  averageAmount : ℚ
deriving DecidableEq, Repr

/-- getByCategory: LEFT JOIN from categorias (one group per category, the
empty group for zero-activity categories), aggregates per group, ORDER BY
total DESC NULLS LAST then name ASC, NULLs coerced to 0 on output.
Grouping by (id, nombre, color) coincides with one group per list entry
because category ids are unique (primary key). -/
def getByCategory (off now : Int) (db : Db) (startDate endDate : String) :
    Except ApiFailure (List CategoryRow) :=
  let errs := validateDateRange off now startDate endDate 365
  if errs.isEmpty then
    match pgDateCast startDate, pgDateCast endDate with
    | some lo, some hi =>
      let rows := db.gastos.filter (rowMatches lo hi none)
      let groups := db.categorias.map (fun c =>
        let g := rows.filter (fun r => r.categoria_id = c.id)
        CatGroup.mk c g.length (sqlSum (g.map (·.monto))) (sqlAvg (g.map (·.monto))))
      .ok ((List.insertionSort catOrder groups).map (fun gr =>
        { categoria := gr.categoria
          expenseCount := gr.cnt
          totalAmount := gr.total.getD 0
          averageAmount := gr.avg.getD 0 }))
    | _, _ => .error .dbError
  else .error (.badRequest errs)

/-- The monto branch of validateExpenseData: reject nonpositive and oversized
amounts, then Math.round(monto * 100) / 100 (round half away from zero on
positive input, as Math.round rounds half up). -/
def validateMonto (monto : ℚ) : Except String ℚ :=
  if monto ≤ 0 then .error "Amount must be a positive number"
  else if monto > 99999999.99 then .error "Amount cannot exceed 99,999,999.99"
  else .ok ((round (monto * 100) : ℤ) / (100 : ℚ))

/-! ## Structural facts about the weekly pipeline -/

/-- The seven bucket keys of the week starting at day ws. -/
def weekKeys (ws : Int) : List Ymd :=
  (List.range 7).map (fun i : Nat => civilOfEpochDay (ws + (i : Int)))

/-- The rows the weekly query fetches, in query order. -/
def weekFetched (db : Db) (ws : Int) : List Gasto :=
  List.insertionSort weeklyOrder
    (db.gastos.filter (fun g => decide (ws ≤ g.fecha) && decide (g.fecha ≤ ws + 6)))

theorem foldl_add_monto (l : List Gasto) (init : ℚ) :
    l.foldl (fun acc g => acc + g.monto) init = init + (l.map (·.monto)).sum := by
  induction l generalizing init with
  | nil => simp
  | cons g gs ih => simp [ih, add_assoc]

theorem findWeeklyExpenses_spec (off : Int) (h1 : -1440 < off) (h2 : off < 1440)
    (db : Db) (s : String) (x : Ymd) (hp : jsDateParse s = some x) :
    findWeeklyExpenses off db s = some
      { weekStart := civilOfEpochDay (weekStartDay off (civilToDays x))
        weekEnd := civilOfEpochDay (weekStartDay off (civilToDays x) + 6)
        dates := weekKeys (weekStartDay off (civilToDays x))
        expenses := organizeExpensesByDay
          (weekFetched db (weekStartDay off (civilToDays x)))
          (weekKeys (weekStartDay off (civilToDays x)))
        weekTotal := ((weekFetched db (weekStartDay off (civilToDays x))).map (·.monto)).sum
        totalExpenses := (weekFetched db (weekStartDay off (civilToDays x))).length } := by
  unfold findWeeklyExpenses
  rw [getWeekDates_eq off h1 h2 s x hp]
  simp only [Option.map_some']
  congr 1
  rw [WeeklyResult.mk.injEq]
  rw [civilToDays_civilOfEpochDay]
  rw [civilToDays_civilOfEpochDay]
  refine ⟨rfl, rfl, rfl, rfl, ?_, rfl⟩
  rw [foldl_add_monto]
  rw [zero_add]
  rfl

theorem weekKeys_nodup (ws : Int) : (weekKeys ws).Nodup := by
  unfold weekKeys
  refine List.Nodup.map ?_ (List.nodup_range 7)
  intro i j h
  have := civilOfEpochDay_injective h
  omega

theorem mem_weekKeys (ws : Int) (d : Int) (hd1 : ws ≤ d) (hd2 : d ≤ ws + 6) :
    civilOfEpochDay d ∈ weekKeys ws := by
  unfold weekKeys
  rw [List.mem_map]
  refine ⟨(d - ws).toNat, ?_, ?_⟩
  · rw [List.mem_range]; omega
  · congr 1; omega

/-- Pushing the expenses one by one extends each bucket by its in-order
filtered matches. -/
theorem organize_fold_aux (es : List Gasto) (dates : List Ymd) (f : Ymd → List Gasto) :
    es.foldl
        (fun acc e => acc.map (fun kv => if kv.1 = fechaKey e then (kv.1, kv.2 ++ [e]) else kv))
        (dates.map (fun dt => (dt, f dt)))
      = dates.map (fun dt => (dt, f dt ++ es.filter (fun e => decide (dt = fechaKey e)))) := by
  induction es generalizing f with
  | nil => simp
  | cons e es ih =>
    rw [List.foldl_cons]
    have step : (dates.map (fun dt => (dt, f dt))).map
        (fun kv => if kv.1 = fechaKey e then (kv.1, kv.2 ++ [e]) else kv)
        = dates.map (fun dt => (dt, f dt ++ if dt = fechaKey e then [e] else [])) := by
      rw [List.map_map]
      apply List.map_congr_left
      intro dt _
      by_cases hdt : dt = fechaKey e <;> simp [hdt]
    rw [step, ih]
    apply List.map_congr_left
    intro dt _
    by_cases hdt : dt = fechaKey e <;> simp [hdt, List.filter_cons]

/-- The bucket map is the per-key in-order filter of the fetched rows. -/
theorem organize_eq_filter (es : List Gasto) (dates : List Ymd) :
    organizeExpensesByDay es dates
      = dates.map (fun dt => (dt, es.filter (fun e => decide (dt = fechaKey e)))) := by
  unfold organizeExpensesByDay
  have h := organize_fold_aux es dates (fun _ => [])
  simpa using h

/-! ## Partition accounting: each fetched row lands in exactly one bucket -/

theorem sum_map_add_distrib {M : Type} [AddCommMonoid M] (l : List Ymd)
    (f g : Ymd → M) :
    (l.map (fun a => f a + g a)).sum = (l.map f).sum + (l.map g).sum := by
  induction l with
  | nil => simp
  | cons a l ih => simp [ih]; abel

theorem sum_indicator_zero {M : Type} [AddCommMonoid M] (keys : List Ymd)
    (k : Ymd) (v : M) (hk : k ∉ keys) :
    (keys.map (fun dt => if dt = k then v else 0)).sum = 0 := by
  induction keys with
  | nil => simp
  | cons a keys ih =>
    simp only [List.mem_cons, not_or] at hk
    simp [List.map_cons, Ne.symm hk.1, ih hk.2]

theorem sum_indicator {M : Type} [AddCommMonoid M] (keys : List Ymd)
    (k : Ymd) (v : M) (hnd : keys.Nodup) (hk : k ∈ keys) :
    (keys.map (fun dt => if dt = k then v else 0)).sum = v := by
  induction keys with
  | nil => simp at hk
  | cons a keys ih =>
    rcases List.mem_cons.mp hk with h | h
    · subst h
      have hnotin : k ∉ keys := (List.nodup_cons.mp hnd).1
      simp [sum_indicator_zero keys k v hnotin]
    · have ha : a ≠ k := by
        rintro rfl
        exact (List.nodup_cons.mp hnd).1 h
      simp [ha, ih (List.nodup_cons.mp hnd).2 h]

/-- Summing any additive measure bucket by bucket recovers its sum over all
fetched rows, provided every row's key is among the (distinct) bucket keys. -/
theorem filter_partition_sum {M : Type} [AddCommMonoid M] (f : Gasto → M)
    (es : List Gasto) (keys : List Ymd) (hnd : keys.Nodup)
    (hmem : ∀ e ∈ es, fechaKey e ∈ keys) :
    (keys.map (fun dt => ((es.filter (fun e => decide (dt = fechaKey e))).map f).sum)).sum
      = (es.map f).sum := by
  induction es with
  | nil => simp
  | cons e es ih =>
    have hmem' : ∀ e' ∈ es, fechaKey e' ∈ keys := fun e' he' => hmem e' (List.mem_cons_of_mem e he')
    have hsplit : ∀ dt : Ymd,
        (((e :: es).filter (fun e' => decide (dt = fechaKey e'))).map f).sum
          = (if dt = fechaKey e then f e else 0)
            + ((es.filter (fun e' => decide (dt = fechaKey e'))).map f).sum := by
      intro dt
      by_cases hdt : dt = fechaKey e <;> simp [List.filter_cons, hdt]
    calc (keys.map (fun dt => (((e :: es).filter (fun e' => decide (dt = fechaKey e'))).map f).sum)).sum
        = (keys.map (fun dt => (if dt = fechaKey e then f e else 0)
            + ((es.filter (fun e' => decide (dt = fechaKey e'))).map f).sum)).sum := by
          congr 1
          exact List.map_congr_left (fun dt _ => hsplit dt)
      _ = (keys.map (fun dt => if dt = fechaKey e then f e else 0)).sum
            + (keys.map (fun dt => ((es.filter (fun e' => decide (dt = fechaKey e'))).map f).sum)).sum := by
          exact sum_map_add_distrib keys _ _
      _ = f e + (es.map f).sum := by
          rw [sum_indicator keys (fechaKey e) (f e) hnd (hmem e (List.mem_cons_self e es)), ih hmem']
      _ = ((e :: es).map f).sum := by simp

theorem weekFetched_mem (db : Db) (ws : Int) (g : Gasto) :
    g ∈ weekFetched db ws ↔ g ∈ db.gastos ∧ ws ≤ g.fecha ∧ g.fecha ≤ ws + 6 := by
  unfold weekFetched
  rw [(List.perm_insertionSort weeklyOrder _).mem_iff, List.mem_filter]
  simp

theorem weekFetched_sorted (db : Db) (ws : Int) :
    (weekFetched db ws).Sorted weeklyOrder :=
  List.sorted_insertionSort weeklyOrder _

theorem length_as_sum {α : Type} (l : List α) :
    (l.map (fun _ => (1 : ℕ))).sum = l.length := by
  induction l <;> simp_all <;> omega

/-- Any additive measure summed bucket by bucket equals its sum over the
fetched rows. -/
theorem buckets_measure {M : Type} [AddCommMonoid M] (f : Gasto → M)
    (es : List Gasto) (keys : List Ymd) (hnd : keys.Nodup)
    (hmem : ∀ e ∈ es, fechaKey e ∈ keys) :
    ((organizeExpensesByDay es keys).map (fun kv => (kv.2.map f).sum)).sum
      = (es.map f).sum := by
  rw [organize_eq_filter, List.map_map]
  rw [← filter_partition_sum f es keys hnd hmem]
  congr 1

theorem buckets_length (es : List Gasto) (keys : List Ymd) (hnd : keys.Nodup)
    (hmem : ∀ e ∈ es, fechaKey e ∈ keys) :
    ((organizeExpensesByDay es keys).map (fun kv => kv.2.length)).sum = es.length := by
  have h1 : ((organizeExpensesByDay es keys).map (fun kv => kv.2.length)).sum
      = ((organizeExpensesByDay es keys).map (fun kv => (kv.2.map (fun _ => (1 : ℕ))).sum)).sum := by
    congr 1
    apply List.map_congr_left
    intro kv _
    rw [length_as_sum]
  rw [h1, buckets_measure (fun _ => (1 : ℕ)) es keys hnd hmem, length_as_sum]

/-- A weekly result can only be produced from a successfully parsed anchor. -/
theorem findWeekly_parse (off : Int) (db : Db) (s : String) (R : WeeklyResult)
    (h : findWeeklyExpenses off db s = some R) : ∃ x, jsDateParse s = some x := by
  unfold findWeeklyExpenses getWeekDates parseDateString at h
  cases hx : jsDateParse s with
  | none => rw [hx] at h; simp at h
  | some x => exact ⟨x, rfl⟩

/-- C9: for every anchor date and every expense data set (including the empty
one), the weekly report's per-day map contains exactly 7 keys, one per date
from weekStart to weekEnd inclusive (7 consecutive calendar days), each
mapped to a (possibly empty) list of expenses. -/
theorem c9_week_partition (off : Int) (db : Db) (s : String) (R : WeeklyResult)
    (h1 : -1440 < off) (h2 : off < 1440)
    (hR : findWeeklyExpenses off db s = some R) :
    R.expenses.map Prod.fst = R.dates ∧
    R.dates.length = 7 ∧ R.dates.Nodup ∧
    ∃ ws : Int, R.weekStart = civilOfEpochDay ws ∧
      R.weekEnd = civilOfEpochDay (ws + 6) ∧
      R.dates = (List.range 7).map (fun i : Nat => civilOfEpochDay (ws + (i : Int))) := by
  obtain ⟨x, hx⟩ := findWeekly_parse off db s R hR
  have hspec := findWeeklyExpenses_spec off h1 h2 db s x hx
  rw [hR] at hspec
  obtain rfl : R = _ := Option.some.inj hspec
  refine ⟨?_, ?_, weekKeys_nodup _, ⟨weekStartDay off (civilToDays x), rfl, rfl, rfl⟩⟩
  · rw [organize_eq_filter, List.map_map]
    show (weekKeys (weekStartDay off (civilToDays x))).map (fun dt => dt) = _
    simp
  · unfold weekKeys
    simp

/-- C2: for every anchor date and stored expense set, weekTotal equals
exactly the sum of the amounts in the 7 per-day buckets, and the fetched
expense count equals the total bucket occupancy: every fetched expense sits
in a bucket and contributes, and nothing else does. -/
theorem c2_weekTotal_eq_bucket_sums (off : Int) (db : Db) (s : String)
    (R : WeeklyResult) (h1 : -1440 < off) (h2 : off < 1440)
    (hR : findWeeklyExpenses off db s = some R) :
    R.weekTotal = (R.expenses.map (fun kv => (kv.2.map (·.monto)).sum)).sum ∧
    R.totalExpenses = (R.expenses.map (fun kv => kv.2.length)).sum := by
  obtain ⟨x, hx⟩ := findWeekly_parse off db s R hR
  have hspec := findWeeklyExpenses_spec off h1 h2 db s x hx
  rw [hR] at hspec
  obtain rfl : R = _ := Option.some.inj hspec
  set ws := weekStartDay off (civilToDays x) with hws
  have hmem : ∀ g ∈ weekFetched db ws, fechaKey g ∈ weekKeys ws := by
    intro g hg
    obtain ⟨-, hlo, hhi⟩ := (weekFetched_mem db ws g).mp hg
    exact mem_weekKeys ws g.fecha hlo hhi
  constructor
  · rw [buckets_measure (·.monto) (weekFetched db ws) (weekKeys ws)
      (weekKeys_nodup ws) hmem]
  · rw [buckets_length (weekFetched db ws) (weekKeys ws) (weekKeys_nodup ws) hmem]

/-- C2 witness: a concrete week with one expense on Wednesday 2025-01-15. -/
def sampleGasto : Gasto :=
  { id := 1, monto := 850, fecha := civilToDays ⟨2025, 1, 15⟩, categoria_id := 1
    nombre_gasto_id := 1, created_at := 0, descripcion := none }

def sampleDb : Db :=
  { gastos := [sampleGasto], categorias := [⟨1, "Comida", "#EF4444"⟩] }

theorem c2_witness :
    ∃ R, findWeeklyExpenses 0 sampleDb "2025-01-15" = some R ∧
      (R.weekTotal = (R.expenses.map (fun kv => (kv.2.map (·.monto)).sum)).sum ∧
       R.totalExpenses = (R.expenses.map (fun kv => kv.2.length)).sum) := by
  cases hR : findWeeklyExpenses 0 sampleDb "2025-01-15" with
  | none => exact absurd hR (by decide)
  | some R =>
    exact ⟨R, rfl, c2_weekTotal_eq_bucket_sums 0 sampleDb "2025-01-15" R
      (by decide) (by decide) hR⟩

theorem c9_witness :
    ∃ R, findWeeklyExpenses 0 sampleDb "2025-01-15" = some R ∧
      (R.expenses.map Prod.fst = R.dates ∧
       R.dates.length = 7 ∧ R.dates.Nodup ∧
       ∃ ws : Int, R.weekStart = civilOfEpochDay ws ∧
         R.weekEnd = civilOfEpochDay (ws + 6) ∧
         R.dates = (List.range 7).map (fun i : Nat => civilOfEpochDay (ws + (i : Int)))) := by
  cases hR : findWeeklyExpenses 0 sampleDb "2025-01-15" with
  | none => exact absurd hR (by decide)
  | some R =>
    exact ⟨R, rfl, c9_week_partition 0 sampleDb "2025-01-15" R (by decide) (by decide) hR⟩

/-- C10: within each per-day bucket of the weekly report, expenses appear in
ascending date and creation order (oldest first) — the weekly query orders by
fecha ASC, created_at ASC, and the bucketing step keeps each bucket as the
in-order filter of the fetched list; since all expenses of a bucket share
its date key, each bucket is ascending in creation order. -/
theorem c10_bucket_ascending (off : Int) (db : Db) (s : String) (R : WeeklyResult)
    (h1 : -1440 < off) (h2 : off < 1440)
    (hR : findWeeklyExpenses off db s = some R) :
    ∃ fetched : List Gasto,
      fetched.Sorted (fun a b =>
        a.fecha < b.fecha ∨ (a.fecha = b.fecha ∧ a.created_at ≤ b.created_at)) ∧
      ∀ kv ∈ R.expenses,
        kv.2 = fetched.filter (fun g => decide (kv.1 = fechaKey g)) ∧
        (∀ g ∈ kv.2, fechaKey g = kv.1) ∧
        kv.2.Sorted (fun a b => a.created_at ≤ b.created_at) := by
  obtain ⟨x, hx⟩ := findWeekly_parse off db s R hR
  have hspec := findWeeklyExpenses_spec off h1 h2 db s x hx
  rw [hR] at hspec
  obtain rfl : R = _ := Option.some.inj hspec
  set ws := weekStartDay off (civilToDays x) with hws
  refine ⟨weekFetched db ws, weekFetched_sorted db ws, ?_⟩
  intro kv hkv
  rw [organize_eq_filter, List.mem_map] at hkv
  obtain ⟨dt, -, rfl⟩ := hkv
  have hkey : ∀ g ∈ (weekFetched db ws).filter (fun g => decide (dt = fechaKey g)),
      fechaKey g = dt := by
    intro g hg
    have := (List.mem_filter.mp hg).2
    simp at this
    exact this.symm
  refine ⟨rfl, hkey, ?_⟩
  have hpair : ((weekFetched db ws).filter
      (fun g => decide (dt = fechaKey g))).Pairwise weeklyOrder :=
    List.Pairwise.filter _ (weekFetched_sorted db ws)
  refine List.Pairwise.imp_of_mem ?_ hpair
  intro a b ha hb hab
  have hfa : a.fecha = b.fecha := by
    have h1 := hkey a ha
    have h2 := hkey b hb
    have : civilOfEpochDay a.fecha = civilOfEpochDay b.fecha := by
      unfold fechaKey at h1 h2
      rw [h1, h2]
    exact civilOfEpochDay_injective this
  unfold weeklyOrder at hab
  omega

theorem c10_witness :
    ∃ R, findWeeklyExpenses 0 sampleDb "2025-01-15" = some R ∧
      ∃ fetched : List Gasto,
        fetched.Sorted (fun a b =>
          a.fecha < b.fecha ∨ (a.fecha = b.fecha ∧ a.created_at ≤ b.created_at)) ∧
        ∀ kv ∈ R.expenses,
          kv.2 = fetched.filter (fun g => decide (kv.1 = fechaKey g)) ∧
          (∀ g ∈ kv.2, fechaKey g = kv.1) ∧
          kv.2.Sorted (fun a b => a.created_at ≤ b.created_at) := by
  cases hR : findWeeklyExpenses 0 sampleDb "2025-01-15" with
  | none => exact absurd hR (by decide)
  | some R =>
    exact ⟨R, rfl, c10_bucket_ascending 0 sampleDb "2025-01-15" R (by decide) (by decide) hR⟩

/-- C1 counterexample: in an environment east of UTC (offset +60 minutes),
getWeekDates of the Wednesday 2025-01-15 returns weekStart 2025-01-12, a
Sunday (day-of-week 0), not the Monday on or before the anchor. -/
theorem c1_counterexample :
    (getWeekDates 60 "2025-01-15").map WeekDates.weekStart
      = some ⟨2025, 1, 12⟩ ∧
    (civilToDays ⟨2025, 1, 12⟩ + 4) % 7 = 0 ∧
    (civilToDays ⟨2025, 1, 15⟩ + 4) % 7 = 3 := by
  refine ⟨by decide, by decide, by decide⟩

/-- C1 amended: when the environment offset is at or west of UTC (off ≤ 0,
e.g. the UTC deployment), the week bounds are as claimed: weekStart is the
Monday on or before the anchor (exactly 6 days earlier for a Sunday anchor,
the anchor itself for a Monday anchor), weekEnd is weekStart plus 6 days (a
Sunday), and dates is the ordered run of 7 consecutive days from weekStart;
in an east-of-UTC environment every returned date shifts one day earlier.
Day-of-week of epoch day d is (d + 4) % 7 with 0 = Sunday, 1 = Monday. -/
theorem c1_week_bounds_west (off : Int) (s : String) (x : Ymd) (R : WeekDates)
    (h1 : -1440 < off) (h2 : off ≤ 0) (hp : jsDateParse s = some x)
    (hR : getWeekDates off s = some R) :
    ∃ ws : Int,
      R.weekStart = civilOfEpochDay ws ∧
      (ws + 4) % 7 = 1 ∧
      ws ≤ civilToDays x ∧ civilToDays x ≤ ws + 6 ∧
      ((civilToDays x + 4) % 7 = 0 → ws = civilToDays x - 6) ∧
      ((civilToDays x + 4) % 7 = 1 → ws = civilToDays x) ∧
      R.weekEnd = civilOfEpochDay (ws + 6) ∧
      (ws + 6 + 4) % 7 = 0 ∧
      R.dates = (List.range 7).map
        (fun i : Nat => civilOfEpochDay (ws + (i : Int))) := by
  have hspec := getWeekDates_eq off h1 (by omega) s x hp
  rw [hR] at hspec
  obtain rfl : R = _ := Option.some.inj hspec
  refine ⟨weekStartDay off (civilToDays x), rfl, ?_, ?_, ?_, ?_, ?_, rfl, ?_, rfl⟩
  all_goals unfold weekStartDay keyDay
  all_goals split_ifs <;> omega

theorem c1_witness :
    ∃ R, getWeekDates 0 "2025-01-15" = some R ∧
      ∃ ws : Int,
        R.weekStart = civilOfEpochDay ws ∧
        (ws + 4) % 7 = 1 ∧
        ws ≤ civilToDays ⟨2025, 1, 15⟩ ∧ civilToDays ⟨2025, 1, 15⟩ ≤ ws + 6 ∧
        ((civilToDays ⟨2025, 1, 15⟩ + 4) % 7 = 0 → ws = civilToDays ⟨2025, 1, 15⟩ - 6) ∧
        ((civilToDays ⟨2025, 1, 15⟩ + 4) % 7 = 1 → ws = civilToDays ⟨2025, 1, 15⟩) ∧
        R.weekEnd = civilOfEpochDay (ws + 6) ∧
        (ws + 6 + 4) % 7 = 0 ∧
        R.dates = (List.range 7).map
          (fun i : Nat => civilOfEpochDay (ws + (i : Int))) := by
  cases hR : getWeekDates 0 "2025-01-15" with
  | none => exact absurd hR (by decide)
  | some R =>
    exact ⟨R, rfl, c1_week_bounds_west 0 "2025-01-15" ⟨2025, 1, 15⟩ R
      (by decide) (by decide) (by decide) hR⟩

/-- C4 counterexample: parsing accepts the ISO year-month form "2025-01",
which is not a well-formed YYYY-MM-DD string, and in an environment east of
UTC (offset +60) serializing the parsed date 2025-01-15 yields 2025-01-14 —
a drift to the previous day through the UTC conversion of toISOString. -/
theorem c4_counterexample :
    (jsDateParse "2025-01").isSome = true ∧
    (parseYmdStrict "2025-01").isSome = false ∧
    (parseDateString 60 "2025-01-15").map formatDateToString
      = some ⟨2025, 1, 14⟩ ∧
    some (Ymd.mk 2025 1 14) ≠ some (Ymd.mk 2025 1 15) := by
  refine ⟨by decide, by decide, by decide, by decide⟩

/-- C4 amended: serialization renders the UTC calendar fields of the
instant, so at or west of UTC (off ≤ 0) parsing a date string and
serializing returns exactly the parsed calendar date (east of UTC it drifts
one day back); and parsing accepts every well-formed YYYY-MM-DD string of a
real calendar date.  Acceptance is strictly wider than YYYY-MM-DD (the ISO
year and year-month forms also parse, see the counterexample); no claim is
made about which other formats are rejected. -/
theorem c4_serialize_roundtrip_west :
    (∀ off : Int, ∀ s : String, ∀ x : Ymd, -1440 < off → off ≤ 0 →
      jsDateParse s = some x →
      (parseDateString off s).map formatDateToString = some x) ∧
    (∀ s : String, ∀ x : Ymd, parseYmdStrict s = some x →
      jsDateParse s = some x ∧ x.valid) := by
  constructor
  · intro off s x ho1 ho2 hp
    unfold parseDateString
    rw [hp]
    simp only [Option.map_some']
    unfold formatDateToString
    have hutc : utcDay (civilToDays x * msPerDay - off * 60000) = civilToDays x := by
      unfold utcDay msPerDay; omega
    rw [hutc]
    rw [civilOfEpochDay_civilToDays x (jsDateParse_valid s x hp)]
  · intro s x h
    exact ⟨jsDateParse_of_strict s x h, parseYmdStrict_valid s x h⟩

theorem c4_witness :
    (parseDateString 0 "2025-01-15").map formatDateToString
      = some ⟨2025, 1, 15⟩ :=
  c4_serialize_roundtrip_west.1 0 "2025-01-15" ⟨2025, 1, 15⟩
    (by decide) (by decide) (by decide)

/-- C5 amended: range validation fails with the format error exactly when
either date fails to parse under the ECMA-262 date-time grammar — NOT
exactly when it fails to be a YYYY-MM-DD string (see the counterexample);
with both dates parsed, the reversed, too-large and in-future errors are
present exactly when start is after end, the day span exceeds maxDays, and
start is strictly after the end of today (i.e. past today's local calendar
day), and validation succeeds otherwise.  In particular the range
2024-01-01 to 2025-06-01 at maxDays 365 fails as too large (see the
witness). -/
theorem c5_validateRange (off now maxDays : Int) (s e : String)
    (h1 : -1440 < off) (h2 : off < 1440) :
    (∀ xs xe, jsDateParse s = some xs → jsDateParse e = some xe →
      validateDateRange off now s e maxDays
        = (if civilToDays xe < civilToDays xs then [RangeErr.reversed] else []) ++
          (if maxDays < civilToDays xe - civilToDays xs then [RangeErr.tooLarge] else []) ++
          (if localDay off now < civilToDays xs then [RangeErr.inFuture] else [])) ∧
    ((jsDateParse s = none ∨ jsDateParse e = none) →
      validateDateRange off now s e maxDays = [RangeErr.invalidFormat]) := by
  constructor
  · intro xs xe hxs hxe
    unfold validateDateRange parseDateString
    rw [hxs, hxe]
    simp only [Option.map_some']
    have e1 : (civilToDays xs * msPerDay - off * 60000
        > civilToDays xe * msPerDay - off * 60000)
        ↔ (civilToDays xe < civilToDays xs) := by
      unfold msPerDay; omega
    have e2 : jsCeilDiv ((civilToDays xe * msPerDay - off * 60000)
        - (civilToDays xs * msPerDay - off * 60000)) msPerDay
        = civilToDays xe - civilToDays xs := by
      unfold jsCeilDiv msPerDay; omega
    have e3 : (civilToDays xs * msPerDay - off * 60000 > endOfToday off now)
        ↔ (localDay off now < civilToDays xs) := by
      unfold endOfToday localDay msPerDay; omega
    rw [e2]
    simp only [e1, e3, gt_iff_lt]
  · intro h
    unfold validateDateRange parseDateString
    rcases h with h | h <;> rw [h] <;> simp only [Option.map_none'] <;>
      cases jsDateParse e <;> cases jsDateParse s <;> rfl

def c5Now : Int := 1800000000000

theorem c5_witness :
    ((-1440 : Int) < 0 ∧ (0 : Int) < 1440) ∧
    (∀ xs xe, jsDateParse "2024-01-01" = some xs →
      jsDateParse "2025-06-01" = some xe →
      validateDateRange 0 c5Now "2024-01-01" "2025-06-01" 365
        = (if civilToDays xe < civilToDays xs then [RangeErr.reversed] else []) ++
          (if (365 : Int) < civilToDays xe - civilToDays xs then [RangeErr.tooLarge] else []) ++
          (if localDay 0 c5Now < civilToDays xs then [RangeErr.inFuture] else [])) ∧
    validateDateRange 0 c5Now "2024-01-01" "2025-06-01" 365 = [RangeErr.tooLarge] := by
  refine ⟨⟨by decide, by decide⟩, ?_, by decide⟩
  exact (c5_validateRange 0 c5Now 365 "2024-01-01" "2025-06-01"
    (by decide) (by decide)).1

/-- C5 counterexample: the claim requires an InvalidDateFormat failure
whenever a date does not parse as YYYY-MM-DD, but "2025-01" is not a
YYYY-MM-DD string and validation nevertheless succeeds with no errors,
because new Date("2025-01" + "T00:00:00") parses the ECMA-262 year-month
date form as 2025-01-01. -/
theorem c5_counterexample :
    parseYmdStrict "2025-01" = none ∧
    jsDateParse "2025-01" = some ⟨2025, 1, 1⟩ ∧
    validateDateRange 0 c5Now "2025-01" "2025-06-01" 365 = [] := by
  refine ⟨by decide, by decide, by decide⟩

/-- C7: on any validated range with no matching expenses, the statistics
query succeeds with all aggregates equal to numeric zero (COUNT 0, NULL
sums/averages/extrema and empty distinct sets all coerced to 0), never an
error and never null-like values. -/
theorem c7_zero_stats (off now : Int) (db : Db) (s e : String) (lo hi : Int)
    (hv : validateDateRange off now s e 365 = [])
    (hlo : pgDateCast s = some lo) (hhi : pgDateCast e = some hi)
    (hempty : db.gastos.filter (rowMatches lo hi none) = []) :
    getStatistics off now db s e
      = .ok { totalExpenses := 0, totalAmount := 0, averageAmount := 0,
              minAmount := 0, maxAmount := 0, categoriesUsed := 0,
              expenseNamesUsed := 0, dateRange := (s, e) } := by
  unfold getStatistics
  rw [hv, hlo, hhi]
  simp [hempty, sqlSum, sqlAvg, sqlMin, sqlMax]

def emptyDb : Db := { gastos := [], categorias := [] }

theorem c7_witness :
    validateDateRange 0 c5Now "2025-01-01" "2025-01-31" 365 = [] ∧
    getStatistics 0 c5Now emptyDb "2025-01-01" "2025-01-31"
      = .ok { totalExpenses := 0, totalAmount := 0, averageAmount := 0,
              minAmount := 0, maxAmount := 0, categoriesUsed := 0,
              expenseNamesUsed := 0,
              dateRange := ("2025-01-01", "2025-01-31") } := by
  refine ⟨by decide, ?_⟩
  exact c7_zero_stats 0 c5Now emptyDb "2025-01-01" "2025-01-31"
    (civilToDays ⟨2025, 1, 1⟩) (civilToDays ⟨2025, 1, 31⟩)
    (by decide) (by decide) (by decide) (by decide)

/-- C8: on a validated range, the range read returns exactly the stored
expenses with start ≤ fecha ≤ end (both boundary days included, the day
after end excluded), restricted to the requested category when one is
supplied, ordered by date descending then creation order descending, and
paginated: no LIMIT clause without a truthy limit, LIMIT without OFFSET
when only a limit is supplied, and LIMIT with OFFSET when both are. -/
theorem c8_range_read (off now : Int) (db : Db) (s e : String)
    (opts : RangeOptions) (xs xe : Ymd)
    (hxs : parseYmdStrict s = some xs) (hxe : parseYmdStrict e = some xe)
    (hv : validateDateRange off now s e 365 = [])
    (hc : ∀ c, opts.categoryId = some c → 0 < c) :
    ∃ full : List Gasto,
      findByDateRange off now db s e opts = .ok (applyPagination opts full) ∧
      full.Sorted (fun a b =>
        b.fecha < a.fecha ∨ (a.fecha = b.fecha ∧ b.created_at ≤ a.created_at)) ∧
      (∀ g, g ∈ full ↔ g ∈ db.gastos ∧ civilToDays xs ≤ g.fecha ∧
        g.fecha ≤ civilToDays xe ∧
        ∀ c, opts.categoryId = some c → g.categoria_id = c) ∧
      (opts.limit = none → applyPagination opts full = full) ∧
      (∀ lim, opts.limit = some lim → 0 < lim → opts.offset = none →
        applyPagination opts full = full.take lim) ∧
      (∀ lim o, opts.limit = some lim → 0 < lim → opts.offset = some o → 0 < o →
        applyPagination opts full = (full.drop o).take lim) := by
  refine ⟨List.insertionSort rangeOrder
    (db.gastos.filter (rowMatches (civilToDays xs) (civilToDays xe) opts.categoryId)),
    ?_, List.sorted_insertionSort rangeOrder _, ?_, ?_, ?_, ?_⟩
  · unfold findByDateRange pgDateCast
    rw [hv, hxs, hxe]
    rfl
  · intro g
    rw [(List.perm_insertionSort rangeOrder _).mem_iff, List.mem_filter]
    unfold rowMatches
    cases hcat : opts.categoryId with
    | none => simp
    | some c =>
      have hcpos : c ≠ 0 := by have := hc c hcat; omega
      simp [hcpos]
      tauto
  · intro hl
    unfold applyPagination
    rw [hl]
  · intro lim hl hpos hoff
    unfold applyPagination
    rw [hl, hoff]
    simp [Nat.pos_iff_ne_zero.mp hpos]
  · intro lim o hl hpos hoff hopos
    unfold applyPagination
    rw [hl, hoff]
    simp [Nat.pos_iff_ne_zero.mp hpos, Nat.pos_iff_ne_zero.mp hopos]

def c8Db : Db :=
  { gastos :=
      [ { id := 1, monto := 10, fecha := civilToDays ⟨2025, 1, 1⟩, categoria_id := 1
          nombre_gasto_id := 1, created_at := 0, descripcion := none }
      , { id := 2, monto := 20, fecha := civilToDays ⟨2025, 1, 31⟩, categoria_id := 1
          nombre_gasto_id := 1, created_at := 1, descripcion := none }
      , { id := 3, monto := 30, fecha := civilToDays ⟨2025, 2, 1⟩, categoria_id := 1
          nombre_gasto_id := 1, created_at := 2, descripcion := none } ]
    categorias := [⟨1, "Comida", "#EF4444"⟩] }

theorem c8_witness :
    ∃ full : List Gasto,
      findByDateRange 0 c5Now c8Db "2025-01-01" "2025-01-31"
          { categoryId := some 1, limit := some 1, offset := some 1 }
        = .ok (applyPagination
            { categoryId := some 1, limit := some 1, offset := some 1 } full) ∧
      full.Sorted (fun a b =>
        b.fecha < a.fecha ∨ (a.fecha = b.fecha ∧ b.created_at ≤ a.created_at)) ∧
      (∀ g, g ∈ full ↔ g ∈ c8Db.gastos ∧ civilToDays ⟨2025, 1, 1⟩ ≤ g.fecha ∧
        g.fecha ≤ civilToDays ⟨2025, 1, 31⟩ ∧
        ∀ c, (some 1 : Option Nat) = some c → g.categoria_id = c) ∧
      ((some 1 : Option Nat) = none → applyPagination
        { categoryId := some 1, limit := some 1, offset := some 1 } full = full) ∧
      (∀ lim, (some 1 : Option Nat) = some lim → 0 < lim →
        (some 1 : Option Nat) = none →
        applyPagination { categoryId := some 1, limit := some 1, offset := some 1 } full
          = full.take lim) ∧
      (∀ lim o, (some 1 : Option Nat) = some lim → 0 < lim →
        (some 1 : Option Nat) = some o → 0 < o →
        applyPagination { categoryId := some 1, limit := some 1, offset := some 1 } full
          = (full.drop o).take lim) :=
  c8_range_read 0 c5Now c8Db "2025-01-01" "2025-01-31"
    { categoryId := some 1, limit := some 1, offset := some 1 }
    ⟨2025, 1, 1⟩ ⟨2025, 1, 31⟩ (by decide) (by decide) (by decide)
    (by intro c hcv; cases hcv; omega)

/-- C6: on a validated range, the per-category aggregate returns exactly one
row per existing Category — zero-activity categories included, their rows
showing zero count and zero sum — ordered by sum descending with NULL (zero)
sums last and ties broken by category name ascending.  With all stored
amounts positive, every nonempty group has a positive sum, so the output
order is total descending, then name ascending, zeros trailing. -/
theorem c6_category_breakdown (off now : Int) (db : Db) (s e : String)
    (lo hi : Int)
    (hpos : ∀ g ∈ db.gastos, 0 < g.monto)
    (hv : validateDateRange off now s e 365 = [])
    (hlo : pgDateCast s = some lo) (hhi : pgDateCast e = some hi) :
    ∃ rows : List CategoryRow,
      getByCategory off now db s e = .ok rows ∧
      (rows.map (·.categoria)).Perm db.categorias ∧
      rows.Sorted (fun r1 r2 => r2.totalAmount < r1.totalAmount ∨
        (r1.totalAmount = r2.totalAmount ∧
         r1.categoria.nombre ≤ r2.categoria.nombre)) ∧
      ∀ r ∈ rows, r.expenseCount = 0 → r.totalAmount = 0 ∧ r.averageAmount = 0 := by
  set rows0 := db.gastos.filter (rowMatches lo hi none) with hrows0
  set groups := db.categorias.map (fun c =>
    CatGroup.mk c (rows0.filter (fun r => r.categoria_id = c.id)).length
      (sqlSum ((rows0.filter (fun r => r.categoria_id = c.id)).map (·.monto)))
      (sqlAvg ((rows0.filter (fun r => r.categoria_id = c.id)).map (·.monto))))
    with hgroups
  have hgmem : ∀ gr ∈ groups, ∃ l : List Gasto,
      (∀ x ∈ l, x ∈ db.gastos) ∧
      gr.cnt = l.length ∧ gr.total = sqlSum (l.map (·.monto)) ∧
      gr.avg = sqlAvg (l.map (·.monto)) := by
    intro gr hgr
    rw [hgroups, List.mem_map] at hgr
    obtain ⟨c, -, rfl⟩ := hgr
    refine ⟨rows0.filter (fun r => r.categoria_id = c.id), ?_, rfl, rfl, rfl⟩
    intro x hx
    have h1 := List.mem_filter.mp hx
    have h2 := List.mem_filter.mp h1.1
    exact h2.1
  have htotal_pos : ∀ gr ∈ List.insertionSort catOrder groups,
      ∀ q, gr.total = some q → 0 < q := by
    intro gr hgr q hq
    have hgr' : gr ∈ groups :=
      (List.perm_insertionSort catOrder groups).mem_iff.mp hgr
    obtain ⟨l, hl, -, ht, -⟩ := hgmem gr hgr'
    rw [ht] at hq
    cases hml : l.map (·.monto) with
    | nil => rw [hml] at hq; cases hq
    | cons a as =>
      rw [hml] at hq
      unfold sqlSum at hq
      have hq' : (a :: as).sum = q := Option.some.inj hq
      have hall : ∀ x ∈ a :: as, 0 < x := by
        intro x hx
        rw [← hml] at hx
        obtain ⟨g, hgmem2, rfl⟩ := List.mem_map.mp hx
        exact hpos g (hl g hgmem2)
      rw [← hq']
      exact List.sum_pos _ hall (by simp)
  refine ⟨(List.insertionSort catOrder groups).map (fun gr =>
    CategoryRow.mk gr.categoria gr.cnt (gr.total.getD 0) (gr.avg.getD 0)),
    ?_, ?_, ?_, ?_⟩
  · unfold getByCategory
    rw [hv, hlo, hhi]
    rfl
  · rw [List.map_map]
    refine ((List.perm_insertionSort catOrder groups).map _).trans ?_
    rw [hgroups, List.map_map]
    show (db.categorias.map (fun c : Categoria => c)).Perm db.categorias
    simp
  · have hsorted : (List.insertionSort catOrder groups).Sorted catOrder :=
      List.sorted_insertionSort catOrder groups
    rw [List.Sorted, List.pairwise_map]
    refine List.Pairwise.imp_of_mem ?_ hsorted
    intro a b ha hb hab
    have hab' : catOrderB a b = true := hab
    rcases hta : a.total with _ | xa <;> rcases htb : b.total with _ | xb
    · simp only [catOrderB, hta, htb, decide_eq_true_eq] at hab'
      exact Or.inr ⟨rfl, hab'⟩
    · simp [catOrderB, hta, htb] at hab'
    · refine Or.inl ?_
      have := htotal_pos a ha xa hta
      simpa using this
    · simp only [catOrderB, hta, htb, Bool.or_eq_true, Bool.and_eq_true,
        decide_eq_true_eq] at hab'
      rcases hab' with h | h
      · exact Or.inl (by simpa using h)
      · exact Or.inr ⟨by simp [h.1], h.2⟩
  · intro r hr hcnt
    rw [List.mem_map] at hr
    obtain ⟨gr, hgr, rfl⟩ := hr
    have hgr' : gr ∈ groups :=
      (List.perm_insertionSort catOrder groups).mem_iff.mp hgr
    obtain ⟨l, -, hlen, ht, ha⟩ := hgmem gr hgr'
    have hnil : l = [] := by
      have : l.length = 0 := by
        have : gr.cnt = 0 := hcnt
        omega
      exact List.length_eq_zero.mp this
    subst hnil
    simp only [List.map_nil] at ht ha
    unfold sqlSum at ht
    unfold sqlAvg at ha
    constructor
    · show gr.total.getD 0 = 0
      rw [ht]
      rfl
    · show gr.avg.getD 0 = 0
      rw [ha]
      rfl

def c6Db : Db :=
  { gastos := [ { id := 1, monto := 50, fecha := civilToDays ⟨2025, 1, 10⟩
                  categoria_id := 1, nombre_gasto_id := 1, created_at := 0
                  descripcion := none } ]
    categorias := [⟨1, "Comida", "#EF4444"⟩, ⟨2, "Salud", "#10B981"⟩] }

theorem c6_witness :
    ∃ rows : List CategoryRow,
      getByCategory 0 c5Now c6Db "2025-01-01" "2025-01-31" = .ok rows ∧
      (rows.map (·.categoria)).Perm c6Db.categorias ∧
      rows.Sorted (fun r1 r2 => r2.totalAmount < r1.totalAmount ∨
        (r1.totalAmount = r2.totalAmount ∧
         r1.categoria.nombre ≤ r2.categoria.nombre)) ∧
      ∀ r ∈ rows, r.expenseCount = 0 → r.totalAmount = 0 ∧ r.averageAmount = 0 :=
  c6_category_breakdown 0 c5Now c6Db "2025-01-01" "2025-01-31"
    (civilToDays ⟨2025, 1, 1⟩) (civilToDays ⟨2025, 1, 31⟩)
    (by decide) (by decide) (by decide) (by decide)

/-! ## C3: precision of monetary aggregates -/

/-- A rational is an exact number of cents. -/
def centsQ (q : ℚ) : Prop := ∃ k : ℤ, q * 100 = (k : ℚ)

theorem centsQ_sum (l : List ℚ) (h : ∀ x ∈ l, centsQ x) : centsQ l.sum := by
  induction l with
  | nil => exact ⟨0, by norm_num⟩
  | cons a as ih =>
    obtain ⟨ka, hka⟩ := h a (List.mem_cons_self a as)
    obtain ⟨ks, hks⟩ := ih (fun x hx => h x (List.mem_cons_of_mem a hx))
    refine ⟨ka + ks, ?_⟩
    rw [List.sum_cons, add_mul, hka, hks]
    push_cast
    ring

theorem centsQ_sqlSum_getD (l : List ℚ) (h : ∀ x ∈ l, centsQ x) :
    centsQ ((sqlSum l).getD 0) := by
  cases l with
  | nil =>
    refine ⟨0, ?_⟩
    show (0 : ℚ) * 100 = ((0 : ℤ) : ℚ)
    norm_num
  | cons a as =>
    show centsQ (a :: as).sum
    exact centsQ_sum _ h

def c3Db : Db :=
  { gastos := [ { id := 1, monto := 1/100, fecha := civilToDays ⟨2025, 1, 10⟩
                  categoria_id := 1, nombre_gasto_id := 1, created_at := 0
                  descripcion := none },
                { id := 2, monto := 2/100, fecha := civilToDays ⟨2025, 1, 10⟩
                  categoria_id := 1, nombre_gasto_id := 1, created_at := 1
                  descripcion := none } ]
    categorias := [⟨1, "Comida", "#EF4444"⟩] }

/-- C3 counterexample: aggregates are NOT rounded to 2 decimals at the point
of output.  The statistics query returns AVG(monto) coerced by parseFloat
with no rounding step, so two stored amounts of 0.01 and 0.02 yield an
averageAmount of 0.015 — not an exact number of cents.  (Totals stay exact
only because DECIMAL(10,2) storage already holds whole cents.) -/
theorem c3_counterexample :
    getStatistics 0 c5Now c3Db "2025-01-01" "2025-01-31" =
      .ok { totalExpenses := 2, totalAmount := 3/100, averageAmount := 3/200
            minAmount := 1/100, maxAmount := 2/100
            categoriesUsed := 1, expenseNamesUsed := 1
            dateRange := ("2025-01-01", "2025-01-31") } ∧
    ¬ centsQ ((3 : ℚ)/200) := by
  constructor
  · unfold getStatistics
    rw [show validateDateRange 0 c5Now "2025-01-01" "2025-01-31" 365
          = ([] : List RangeErr) from by decide]
    rw [show pgDateCast "2025-01-01" = some (civilToDays ⟨2025, 1, 1⟩) from by decide,
        show pgDateCast "2025-01-31" = some (civilToDays ⟨2025, 1, 31⟩) from by decide]
    refine congrArg Except.ok ?_
    have hfil : List.filter
        (rowMatches (civilToDays ⟨2025, 1, 1⟩) (civilToDays ⟨2025, 1, 31⟩) none)
        c3Db.gastos = c3Db.gastos := by
      have h1 : ∀ g ∈ c3Db.gastos,
          rowMatches (civilToDays ⟨2025, 1, 1⟩) (civilToDays ⟨2025, 1, 31⟩) none g
            = true := by
        intro g hg
        unfold rowMatches
        simp only [c3Db, List.mem_cons, List.not_mem_nil, or_false] at hg
        rcases hg with rfl | rfl <;> decide
      exact List.filter_eq_self.mpr h1
    rw [hfil]
    rw [Stats.mk.injEq]
    refine ⟨rfl, ?_, ?_, ?_, ?_, by decide, by decide, rfl⟩
    · show ((sqlSum (c3Db.gastos.map (fun x => x.monto))).getD 0) = 3/100
      show ((1 : ℚ)/100) + (2/100 + 0) = 3/100
      norm_num
    · show ((sqlAvg (c3Db.gastos.map (fun x => x.monto))).getD 0) = 3/200
      show (((1 : ℚ)/100) + (2/100 + 0)) / 2 = 3/200
      norm_num
    · show ((sqlMin (c3Db.gastos.map (fun x => x.monto))).getD 0) = 1/100
      show min ((1 : ℚ)/100) (2/100) = 1/100
      norm_num
    · show ((sqlMax (c3Db.gastos.map (fun x => x.monto))).getD 0) = 2/100
      show max ((1 : ℚ)/100) (2/100) = 2/100
      norm_num
  · rintro ⟨k, hk⟩
    have h2 : (k : ℚ) * 2 = 3 := by rw [← hk]; norm_num
    have h3 : (k * 2 : ℤ) = 3 := by exact_mod_cast h2
    omega

/-- C3 amended: rounding to cents happens once on WRITE, not at aggregate
output.  validateExpenseData stores Math.round(monto*100)/100, an exact
number of cents; therefore the additive aggregates (statistics totalAmount,
weekly weekTotal) over cent-valued stored amounts are themselves exact cents
with no precision loss during summation, while averages may carry more
decimals since no rounding is applied at output. -/
theorem c3_integer_cents (monto q : ℚ) (hv : validateMonto monto = .ok q) :
    centsQ q ∧
    (∀ off now : Int, ∀ db : Db, ∀ s e : String, ∀ st : Stats,
      getStatistics off now db s e = .ok st →
      (∀ g ∈ db.gastos, centsQ g.monto) → centsQ st.totalAmount) ∧
    (∀ off : Int, ∀ db : Db, ∀ s : String, ∀ res : WeeklyResult,
      -1440 < off → off < 1440 →
      findWeeklyExpenses off db s = some res →
      (∀ g ∈ db.gastos, centsQ g.monto) → centsQ res.weekTotal) := by
  refine ⟨?_, ?_, ?_⟩
  · unfold validateMonto at hv
    split_ifs at hv
    have hq := Except.ok.inj hv
    refine ⟨round (monto * 100), ?_⟩
    rw [← hq]
    field_simp
  · intro off now db s e st hst hc
    simp only [getStatistics] at hst
    split at hst
    · split at hst
      · have hq := Except.ok.inj hst
        subst hq
        dsimp only
        apply centsQ_sqlSum_getD
        intro x hx
        obtain ⟨g, hg, rfl⟩ := List.mem_map.mp hx
        exact hc g (List.mem_filter.mp hg).1
      · cases hst
    · cases hst
  · intro off db s res h1 h2 hres hc
    obtain ⟨x, hx⟩ := findWeekly_parse off db s res hres
    rw [findWeeklyExpenses_spec off h1 h2 db s x hx] at hres
    have hq := Option.some.inj hres
    subst hq
    dsimp only
    apply centsQ_sum
    intro m hm
    obtain ⟨g, hg, rfl⟩ := List.mem_map.mp hm
    exact hc g ((weekFetched_mem db _ g).mp hg).1

theorem c3_witness :
    centsQ ((247 : ℚ)/20) ∧
    (∀ off now : Int, ∀ db : Db, ∀ s e : String, ∀ st : Stats,
      getStatistics off now db s e = .ok st →
      (∀ g ∈ db.gastos, centsQ g.monto) → centsQ st.totalAmount) ∧
    (∀ off : Int, ∀ db : Db, ∀ s : String, ∀ res : WeeklyResult,
      -1440 < off → off < 1440 →
      findWeeklyExpenses off db s = some res →
      (∀ g ∈ db.gastos, centsQ g.monto) → centsQ res.weekTotal) :=
  c3_integer_cents (123456/10000) (247/20) (by
    unfold validateMonto
    rw [if_neg (by norm_num), if_neg (by norm_num)]
    congr 1
    rw [show ((123456 : ℚ)/10000) * 100 = 30864/25 from by norm_num]
    rw [show round ((30864 : ℚ)/25) = 1235 from by rw [round_eq]; norm_num]
    norm_num)
